import Mathlib

/-
  Verification development for TinyExprX (tinyexprx.c / tinyexprx.h), a
  recursive-descent parser and evaluation engine for complex-number
  expressions.  The C source is shallowly embedded below:

  * double values are idealized as exact rationals, represented by an
    integer pair (numerator, positive denominator).  Every numeric fact
    proved here involves only integer-valued data, on which double
    arithmetic is exact, so the idealization is faithful for these facts.
    A component that C would hold as NaN is represented by Option.none.
  * C pointers to variable storage are addresses (Nat) into an explicit
    store (Nat -> Cx) passed to the evaluator; the C evaluator reads the
    machine memory at the moment of the call, which the store argument
    models.
  * C function pointers are an enumerated type FPtr (pointer identity is
    what the tokenizer and parser compare); their numeric semantics is a
    separate interpretation record.  Arithmetic operators are modelled
    exactly; libm transcendental routines (ccos, clog, ...) are outside
    this repository and are modelled by the NaN marker -- no claim
    exercises them, and the optimizer-correctness theorem is proved for
    every interpretation, so nothing depends on that choice.
  * malloc is modelled by an explicit oracle (a list of Bool outcomes
    consumed by each allocation); the parser's recursion is bounded by a
    fuel parameter, with a distinguished outcome when fuel runs out so
    that fuel exhaustion is never confused with an allocation failure.
-/

namespace TinyExprX

/-! ## Exact numbers: rationals with a NaN marker -/

/-- Rational number n / d with d kept positive by every operation below.
Stands in for a C double; exact on the integer-valued data the claims use. -/
structure Q where
  n : ℤ
  d : ℤ
deriving DecidableEq, Repr

/-- Embed an integer. -/
def qInt (k : ℤ) : Q := ⟨k, 1⟩

def qadd (a b : Q) : Q := ⟨a.n * b.d + b.n * a.d, a.d * b.d⟩

def qsub (a b : Q) : Q := ⟨a.n * b.d - b.n * a.d, a.d * b.d⟩

def qmul (a b : Q) : Q := ⟨a.n * b.n, a.d * b.d⟩

def qneg (a : Q) : Q := ⟨-a.n, a.d⟩

/-- Division; callers guard against a zero divisor.  The sign is moved to
the numerator so the denominator stays positive. -/
def qdiv (a b : Q) : Q :=
  if b.n < 0 then ⟨-(a.n * b.d), a.d * (-b.n)⟩ else ⟨a.n * b.d, a.d * b.n⟩

/-- Zero test (valid because denominators are never zero). -/
def qIsZero (a : Q) : Bool := a.n = 0

/-- A complex double (C99 double _Complex): a pair of components, each a
rational or the NaN marker none. -/
structure Cx where
  re : Option Q
  im : Option Q
deriving DecidableEq, Repr

/-- Componentwise lift with NaN propagation. -/
def liftEF1 (f : Q → Q) : Option Q → Option Q
  | some a => some (f a)
  | none => none

/-- Lift of a binary component operation with NaN propagation. -/
def liftEF2 (f : Q → Q → Q) : Option Q → Option Q → Option Q
  | some a, some b => some (f a b)
  | _, _ => none

/-- The value a C double NAN converts to as a complex: real part NaN,
imaginary part positive zero (C99 6.3.1.7 real-to-complex conversion). -/
def nanC0 : Cx := ⟨none, some (qInt 0)⟩

/-- Fully-NaN complex, produced by arithmetic on NaN operands. -/
def nanCx : Cx := ⟨none, none⟩

def cadd (a b : Cx) : Cx := ⟨liftEF2 qadd a.re b.re, liftEF2 qadd a.im b.im⟩

def csub (a b : Cx) : Cx := ⟨liftEF2 qsub a.re b.re, liftEF2 qsub a.im b.im⟩

def cmul (a b : Cx) : Cx :=
  match a.re, a.im, b.re, b.im with
  | some ar, some ai, some br, some bi =>
      ⟨some (qsub (qmul ar br) (qmul ai bi)), some (qadd (qmul ar bi) (qmul ai br))⟩
  | _, _, _, _ => nanCx

/-- Complex division.  A zero divisor yields non-finite components in C;
the model has no infinities and collapses that case to the NaN marker
(no claim divides by zero). -/
def cdiv (a b : Cx) : Cx :=
  match a.re, a.im, b.re, b.im with
  | some ar, some ai, some br, some bi =>
      let den := qadd (qmul br br) (qmul bi bi)
      if qIsZero den then nanCx
      else ⟨some (qdiv (qadd (qmul ar br) (qmul ai bi)) den),
            some (qdiv (qsub (qmul ai br) (qmul ar bi)) den)⟩
  | _, _, _, _ => nanCx

def cneg (a : Cx) : Cx := ⟨liftEF1 qneg a.re, liftEF1 qneg a.im⟩

def cconj (a : Cx) : Cx := ⟨a.re, liftEF1 qneg a.im⟩

def cxOne : Cx := ⟨some (qInt 1), some (qInt 0)⟩

/-- Iterated complex multiplication (exact power for natural exponents). -/
def cnpow (a : Cx) : ℕ → Cx
  | 0 => cxOne
  | k + 1 => cmul a (cnpow a k)

/-- Model of the C library cpow used for the infix power operator and the
builtin pow.  Exact where the exponent is a (rational representing an)
integer -- the only case any claim exercises; the remaining transcendental
cases are libm code outside this repository, collapsed to the NaN marker. -/
def cpowQ (a b : Cx) : Cx :=
  match b.re, b.im with
  | some br, some bi =>
      if qIsZero bi ∧ br.n % br.d = 0 then
        let k : ℤ := br.n / br.d
        if 0 ≤ k then cnpow a k.toNat
        else
          let p := cnpow a (-k).toNat
          cdiv cxOne p
      else nanCx
  | _, _ => nanCx

/-! ## Function pointers and their interpretation -/

/-- The function pointers that can appear in a token or tree node: the
static arithmetic helpers and builtins of tinyexprx.c, plus opaque
caller-supplied pointers (user n). -/
inductive FPtr where
  | add | sub | mul | divide | negate | comma
  | i | pi | e | infinity
  | cabs | cacos | cacosh | carg | casin | casinh | catan | catanh
  | conj | ccos | ccosh | cexp | cimag | clog | cpow | creal
  | csin | csinh | csqrt | ctan | ctanh
  | user (n : ℕ)
deriving DecidableEq, Repr

/-- Semantics given to the function pointers: plain calls and closure
calls (a closure additionally receives its opaque context).  The
optimizer-correctness theorem is proved for every interpretation. -/
structure Interp where
  app : FPtr → List Cx → Cx
  appClo : FPtr → ℕ → List Cx → Cx

/-- Argument i as the evaluator passes it; a missing slot corresponds to
the C evaluator reading a null parameter, whose evaluation is NAN. -/
def getArg (args : List Cx) (j : ℕ) : Cx := args.getD j nanC0

/-- The arity-many arguments the C evaluator reads from a node. -/
def getArgs (args : List Cx) (ar : ℕ) : List Cx :=
  (List.range ar).map (getArg args)

/-- Concrete semantics of the statically linked functions.  Arithmetic is
exact; transcendental libm routines and the non-finite constant inf are
outside the repository and collapse to the NaN marker; opaque
caller-supplied pointers likewise. -/
def stdApp : FPtr → List Cx → Cx
  | .add, args => cadd (getArg args 0) (getArg args 1)
  | .sub, args => csub (getArg args 0) (getArg args 1)
  | .mul, args => cmul (getArg args 0) (getArg args 1)
  | .divide, args => cdiv (getArg args 0) (getArg args 1)
  | .negate, args => cneg (getArg args 0)
  | .comma, args => getArg args 1
  | .cpow, args => cpowQ (getArg args 0) (getArg args 1)
  | .i, _ => ⟨some (qInt 0), some (qInt 1)⟩
  | .pi, _ => ⟨some ⟨314159265358979323846, 100000000000000000000⟩, some (qInt 0)⟩
  | .e, _ => ⟨some ⟨271828182845904523536, 100000000000000000000⟩, some (qInt 0)⟩
  | .creal, args => ⟨(getArg args 0).re, some (qInt 0)⟩
  | .cimag, args => ⟨(getArg args 0).im, some (qInt 0)⟩
  | .conj, args => cconj (getArg args 0)
  | _, _ => nanC0

/-- The interpretation realized by the compiled C program.  Closure
bodies are caller code unknown to the repository. -/
def stdInterp : Interp := ⟨stdApp, fun _ _ _ => nanC0⟩

/-! ## Symbol table -/

/-- Classification a tx_variable record carries: the TYPE_MASK of its
type field plus the payload of the address/context fields. -/
inductive SymKind where
  | variableK (addr : ℕ)
  | functionK (ar : ℕ) (p : Bool) (f : FPtr)
  | closureK (ar : ℕ) (p : Bool) (f : FPtr) (ctx : ℕ)
deriving DecidableEq, Repr

/-- A tx_variable record (caller binding or builtin table entry). -/
structure TxVariable where
  name : List Char
  kind : SymKind
deriving DecidableEq, Repr

/-- The static builtin table of tinyexprx.c, in its source order
(alphabetical, as the binary search requires). -/
def functions : List TxVariable :=
  [⟨("I").toList, .functionK 0 true .i⟩,
   ⟨("abs").toList, .functionK 1 true .cabs⟩,
   ⟨("acos").toList, .functionK 1 true .cacos⟩,
   ⟨("acosh").toList, .functionK 1 true .cacosh⟩,
   ⟨("arg").toList, .functionK 1 true .carg⟩,
   ⟨("asin").toList, .functionK 1 true .casin⟩,
   ⟨("asinh").toList, .functionK 1 true .casinh⟩,
   ⟨("atan").toList, .functionK 1 true .catan⟩,
   ⟨("atanh").toList, .functionK 1 true .catanh⟩,
   ⟨("conj").toList, .functionK 1 true .conj⟩,
   ⟨("cos").toList, .functionK 1 true .ccos⟩,
   ⟨("cosh").toList, .functionK 1 true .ccosh⟩,
   ⟨("e").toList, .functionK 0 true .e⟩,
   ⟨("exp").toList, .functionK 1 true .cexp⟩,
   ⟨("imag").toList, .functionK 1 true .cimag⟩,
   ⟨("inf").toList, .functionK 0 true .infinity⟩,
   ⟨("log").toList, .functionK 1 true .clog⟩,
   ⟨("pi").toList, .functionK 0 true .pi⟩,
   ⟨("pow").toList, .functionK 2 true .cpow⟩,
   ⟨("real").toList, .functionK 1 true .creal⟩,
   ⟨("sin").toList, .functionK 1 true .csin⟩,
   ⟨("sinh").toList, .functionK 1 true .csinh⟩,
   ⟨("sqrt").toList, .functionK 1 true .csqrt⟩,
   ⟨("tan").toList, .functionK 1 true .ctan⟩,
   ⟨("tanh").toList, .functionK 1 true .ctanh⟩]

/-- strncmp on the first len characters; a list end acts as the C string
terminator (compares as byte 0). -/
def strncmpL : List Char → List Char → ℕ → ℤ
  | _, _, 0 => 0
  | [], [], _ + 1 => 0
  | [], b :: _, _ + 1 => 0 - (b.toNat : ℤ)
  | a :: _, [], _ + 1 => (a.toNat : ℤ)
  | a :: as, b :: bs, len + 1 =>
      if a = b then strncmpL as bs len else (a.toNat : ℤ) - (b.toNat : ℤ)

/-- The comparison find_builtin makes at one table entry: strncmp over the
lexeme length, then, on a tie, the byte of the entry name at position len
(0 when the entry name is exactly that long). -/
def builtinCmp (lexeme tname : List Char) : ℤ :=
  let c := strncmpL lexeme tname lexeme.length
  if c = 0 then 0 - ((tname.getD lexeme.length (Char.ofNat 0)).toNat : ℤ) else c

/-- Binary search of find_builtin: imin/imax bounds as in the C loop
(imax may go below imin, hence integer bounds).  The fuel argument only
bounds the iteration count; 32 exceeds any possible run on a 25-entry
table. -/
def bsearchB (lexeme : List Char) : ℕ → ℤ → ℤ → Option TxVariable
  | 0, _, _ => none
  | fuel + 1, imin, imax =>
      if imax ≥ imin then
        let j : ℤ := imin + (imax - imin) / 2
        match functions.get? j.toNat with
        | none => none
        | some v =>
            let c := builtinCmp lexeme v.name
            if c = 0 then some v
            else if c > 0 then bsearchB lexeme fuel (j + 1) imax
            else bsearchB lexeme fuel imin (j - 1)
      else none

/-- find_builtin: binary search over indices 0 .. 24 (the C bound is the
array size including the null terminator, minus 2). -/
def find_builtin (lexeme : List Char) : Option TxVariable :=
  bsearchB lexeme 32 0 24

/-- The test find_lookup applies to one binding: the first len characters
match and the binding name ends exactly there. -/
def lookupMatch (lexeme : List Char) (v : TxVariable) : Bool :=
  strncmpL lexeme v.name lexeme.length = 0 ∧
    v.name.getD lexeme.length (Char.ofNat 0) = Char.ofNat 0

/-- find_lookup: linear scan of the caller bindings, first match wins. -/
def find_lookup (lookup : List TxVariable) (lexeme : List Char) : Option TxVariable :=
  lookup.find? (lookupMatch lexeme)

/-- Identifier resolution as tx_next_token performs it: the caller
bindings first, the builtin table only if no binding matched. -/
def resolveSym (lookup : List TxVariable) (lexeme : List Char) : Option TxVariable :=
  match find_lookup lookup lexeme with
  | some v => some v
  | none => find_builtin lexeme

/-! ## Tokenizer -/

/-- The token classifications of the TOK_ enum; value-carrying tokens
also carry the state fields the C code sets alongside (value, bound
address, function pointer, context). -/
inductive Token where
  | tnull | terror | tend | tsep | topen | tclose
  | tnumR (v : Q) | tnumI (v : Q)
  | tvar (addr : ℕ)
  | tfn (ar : ℕ) (p : Bool) (f : FPtr)
  | tclo (ar : ℕ) (p : Bool) (f : FPtr) (ctx : ℕ)
  | tinfx (f : FPtr)
deriving DecidableEq, Repr

/-- ASCII digit, as the C character-range test. -/
def isDigitC (c : Char) : Bool := 48 ≤ c.toNat ∧ c.toNat ≤ 57

/-- ASCII letter (isalpha in the C locale). -/
def isAlphaC (c : Char) : Bool :=
  (65 ≤ c.toNat ∧ c.toNat ≤ 90) ∨ (97 ≤ c.toNat ∧ c.toNat ≤ 122)

/-- Identifier continuation character: letter, digit or underscore. -/
def isIdentC (c : Char) : Bool := isAlphaC c ∨ isDigitC c ∨ c = Char.ofNat 95

/-- Accumulate the value of a decimal digit run. -/
def digitsToInt : List Char → ℤ → ℤ
  | [], acc => acc
  | c :: cs, acc => digitsToInt cs (acc * 10 + ((c.toNat : ℤ) - 48))

/-- Model of strtod as the tokenizer invokes it (the cursor is already on
a digit or a dot): value and number of characters consumed, for a decimal
literal digits [. digits] [ (e|E) [+|-] digits ], with the exponent left
unconsumed when it has no digits, and nothing consumed at all when there
is no digit before or after the dot (then strtod returns 0).  Hexadecimal
and inf/nan forms of strtod cannot reach this call site with a value any
claim depends on and are not modelled. -/
def strtodQ (s : List Char) : Q × ℕ :=
  let ip := s.takeWhile isDigitC
  let r1 := s.dropWhile isDigitC
  let fp : List Char × List Char × Bool :=
    match r1 with
    | '.' :: r => (r.takeWhile isDigitC, r.dropWhile isDigitC, true)
    | _ => ([], r1, false)
  match fp with
  | (fs, r2, hasDot) =>
    if ip.isEmpty ∧ fs.isEmpty then (qInt 0, 0)
    else
      let mant : Q := ⟨digitsToInt ip 0 * 10 ^ fs.length + digitsToInt fs 0,
                       (10 : ℤ) ^ fs.length⟩
      let consumed := ip.length + (if hasDot then 1 + fs.length else 0)
      match r2 with
      | c :: rest =>
        if c = 'e' ∨ c = 'E' then
          let sp : ℤ × List Char × ℕ :=
            match rest with
            | '+' :: r => (1, r, 1)
            | '-' :: r => (-1, r, 1)
            | _ => (1, rest, 0)
          match sp with
          | (sgn, rest2, sgnLen) =>
            let es := rest2.takeWhile isDigitC
            if es.isEmpty then (mant, consumed)
            else
              let ev : ℤ := sgn * digitsToInt es 0
              let v : Q :=
                if 0 ≤ ev then ⟨mant.n * 10 ^ ev.toNat, mant.d⟩
                else ⟨mant.n, mant.d * 10 ^ (-ev).toNat⟩
              (v, consumed + 1 + sgnLen + es.length)
        else (mant, consumed)
      | [] => (mant, consumed)

/-- Token a resolved symbol record produces (the TYPE_MASK switch in
tx_next_token). -/
def symToken (v : TxVariable) : Token :=
  match v.kind with
  | .variableK a => .tvar a
  | .functionK ar p f => .tfn ar p f
  | .closureK ar p f c => .tclo ar p f c

/-- One call of tx_next_token, on the remaining source and the count of
characters consumed so far: returns the token, the new remainder and the
new count.  The recursion is the do-while loop that silently skips
whitespace. -/
def nextTokAux (lookup : List TxVariable) : List Char → ℕ → Token × List Char × ℕ
  | [], pos => (.tend, [], pos)
  | c :: rest, pos =>
    if isDigitC c ∨ c = '.' then
      match strtodQ (c :: rest) with
      | (v, used) =>
        match (c :: rest).drop used with
        | 'I' :: r3 => (.tnumI v, r3, pos + used + 1)
        | r2 => (.tnumR v, r2, pos + used)
    else if isAlphaC c then
      let lexeme := (c :: rest).takeWhile isIdentC
      let r2 := (c :: rest).dropWhile isIdentC
      let pos2 := pos + lexeme.length
      match resolveSym lookup lexeme with
      | none => (.terror, r2, pos2)
      | some v => (symToken v, r2, pos2)
    else if c = '+' then (.tinfx .add, rest, pos + 1)
    else if c = '-' then (.tinfx .sub, rest, pos + 1)
    else if c = '*' then (.tinfx .mul, rest, pos + 1)
    else if c = '/' then (.tinfx .divide, rest, pos + 1)
    else if c = '^' then (.tinfx .cpow, rest, pos + 1)
    else if c = '(' then (.topen, rest, pos + 1)
    else if c = ')' then (.tclose, rest, pos + 1)
    else if c = ',' then (.tsep, rest, pos + 1)
    else if c = ' ' ∨ c = Char.ofNat 9 ∨ c = Char.ofNat 10 ∨ c = Char.ofNat 13 then
      nextTokAux lookup rest (pos + 1)
    else (.terror, rest, pos + 1)

/-- The parser state: remaining source, characters consumed (the C
s.next - s.start), current token, caller bindings, and the allocation
oracle consumed by new_expr. -/
structure State where
  src : List Char
  pos : ℕ
  tok : Token
  lookup : List TxVariable
  allocs : List Bool
deriving DecidableEq, Repr

/-- tx_next_token on the parser state. -/
def tx_next_token (s : State) : State :=
  match nextTokAux s.lookup s.src s.pos with
  | (t, r, p) => { s with tok := t, src := r, pos := p }

/-- State at the top of tx_compile, before the first token is read. -/
def initState (expression : List Char) (vars : List TxVariable)
    (allocs : List Bool) : State :=
  { src := expression, pos := 0, tok := .tnull, lookup := vars, allocs := allocs }

/-- One malloc outcome: the head of the oracle (an exhausted oracle means
every further allocation succeeds). -/
def allocStep (s : State) : Bool × State :=
  match s.allocs with
  | [] => (true, s)
  | b :: r => (b, { s with allocs := r })

/-! ## Expression tree, evaluator, optimizer -/

mutual
/-- A tx_expr node.  The constructor is the TYPE_MASK of the type field
(TX_CONSTANT / TX_VARIABLE / function / closure); ar and p are the arity
bits and the TX_FLAG_PURE bit; children are the owned parameters (the
closure context slot is the separate ctx field).  Every tree the parser
builds has exactly ar children. -/
inductive Expr where
  | const (v : Cx)
  | var (addr : ℕ)
  | func (ar : ℕ) (p : Bool) (f : FPtr) (ps : ExprList)
  | clos (ar : ℕ) (p : Bool) (f : FPtr) (ctx : ℕ) (ps : ExprList)
deriving DecidableEq, Repr

/-- Child list of a node. -/
inductive ExprList where
  | nil
  | cons (hd : Expr) (tl : ExprList)
deriving DecidableEq, Repr
end

/-- The dispatch tx_eval makes on a function node: on arity 0..6 call
the pointer with the arity-many evaluated parameters, otherwise (the
unreachable default arm) return NAN. -/
def applyArity (I : Interp) (ar : ℕ) (f : FPtr) (args : List Cx) : Cx :=
  if ar ≤ 6 then I.app f (getArgs args ar) else nanC0

/-- Closure dispatch of tx_eval: the context is passed alongside. -/
def applyClo (I : Interp) (ar : ℕ) (f : FPtr) (c : ℕ) (args : List Cx) : Cx :=
  if ar ≤ 6 then I.appClo f c (getArgs args ar) else nanC0

mutual
/-- tx_eval on a non-null node: a Constant returns its stored value, a
VariableRef reads the store at its bound address at this very call,
function and closure nodes evaluate children left to right and call the
stored pointer. -/
def evalExpr (I : Interp) (st : ℕ → Cx) : Expr → Cx
  | .const v => v
  | .var a => st a
  | .func ar _ f ps => applyArity I ar f (evalList I st ps)
  | .clos ar _ f c ps => applyClo I ar f c (evalList I st ps)

/-- Left-to-right evaluation of a child list. -/
def evalList (I : Interp) (st : ℕ → Cx) : ExprList → List Cx
  | .nil => []
  | .cons t ts => evalExpr I st t :: evalList I st ts
end

/-- tx_eval including the null-handle case: a null pointer returns the
double NAN, which converts to a complex with real NaN and imaginary +0. -/
def tx_eval (I : Interp) (st : ℕ → Cx) : Option Expr → Cx
  | none => nanC0
  | some t => evalExpr I st t

/-- Whether a node is a TX_CONSTANT (the test optimize makes on each
child). -/
def isConstE : Expr → Bool
  | .const _ => true
  | _ => false

/-- The known flag of optimize: all children are constants. -/
def allConstL : ExprList → Bool
  | .nil => true
  | .cons t ts => isConstE t && allConstL ts

/-- Store passed to the evaluation optimize performs when folding; a fold
only evaluates a pure node whose children are all constants, so the store
is never consulted (the C code reads no memory there either). -/
def nanStore : ℕ → Cx := fun _ => nanC0

mutual
/-- The constant-folding pass.  Constants and variables return
immediately; a node carrying TX_FLAG_PURE has its children optimized and,
when they are then all constants, is rewritten in place to a constant
holding one evaluation of itself; a node without the flag is returned
untouched -- its children are not visited. -/
def optimize (I : Interp) : Expr → Expr
  | .const v => .const v
  | .var a => .var a
  | .func ar p f ps =>
      if p then
        let ps2 := optimizeList I ps
        if allConstL ps2 then .const (evalExpr I nanStore (.func ar p f ps2))
        else .func ar p f ps2
      else .func ar p f ps
  | .clos ar p f c ps =>
      if p then
        let ps2 := optimizeList I ps
        if allConstL ps2 then .const (evalExpr I nanStore (.clos ar p f c ps2))
        else .clos ar p f c ps2
      else .clos ar p f c ps

/-- Child-by-child optimization (the for loop over the arity). -/
def optimizeList (I : Interp) : ExprList → ExprList
  | .nil => .nil
  | .cons t ts => .cons (optimize I t) (optimizeList I ts)
end

/-! ## Parser

Each grammar production returns either a node and the threaded state, or
the C null pointer (an allocation failed somewhere below -- every
CHECK_NULL path frees its partial nodes and propagates null), or the
embedding-only fuel-exhaustion marker, kept distinct so that running out
of fuel can never masquerade as an allocation failure. -/

/-- Result of a grammar production. -/
inductive PRes where
  | ok (e : Expr) (s : State)
  | fail
  | out
deriving DecidableEq, Repr

/-- Result of the argument-collecting for loop of an arity >= 2 call:
the children parsed, the final loop index i, and the state. -/
inductive ARes where
  | adone (ps : ExprList) (i : ℕ) (s : State)
  | afail
  | aout
deriving DecidableEq, Repr

mutual

/-- base production: constant, variable, calls of each arity shape, or a
parenthesized list.  Mirrors the C switch on TYPE_MASK(s->type). -/
def base : ℕ → State → PRes
  | 0, _ => .out
  | fuel + 1, s =>
    match s.tok with
    | .tnumR v =>
      match allocStep s with
      | (false, _) => .fail
      | (true, s1) => .ok (.const ⟨some v, some (qInt 0)⟩) (tx_next_token s1)
    | .tnumI v =>
      match allocStep s with
      | (false, _) => .fail
      | (true, s1) => .ok (.const ⟨some (qInt 0), some v⟩) (tx_next_token s1)
    | .tvar a =>
      match allocStep s with
      | (false, _) => .fail
      | (true, s1) => .ok (.var a) (tx_next_token s1)
    | .tfn 0 p f =>
      match allocStep s with
      | (false, _) => .fail
      | (true, s1) =>
        let s2 := tx_next_token s1
        if s2.tok = .topen then
          let s3 := tx_next_token s2
          if s3.tok = .tclose then .ok (.func 0 p f .nil) (tx_next_token s3)
          else .ok (.func 0 p f .nil) { s3 with tok := .terror }
        else .ok (.func 0 p f .nil) s2
    | .tclo 0 p f c =>
      match allocStep s with
      | (false, _) => .fail
      | (true, s1) =>
        let s2 := tx_next_token s1
        if s2.tok = .topen then
          let s3 := tx_next_token s2
          if s3.tok = .tclose then .ok (.clos 0 p f c .nil) (tx_next_token s3)
          else .ok (.clos 0 p f c .nil) { s3 with tok := .terror }
        else .ok (.clos 0 p f c .nil) s2
    | .tfn 1 p f =>
      match allocStep s with
      | (false, _) => .fail
      | (true, s1) =>
        match power fuel (tx_next_token s1) with
        | .out => .out
        | .fail => .fail
        | .ok b s2 => .ok (.func 1 p f (.cons b .nil)) s2
    | .tclo 1 p f c =>
      match allocStep s with
      | (false, _) => .fail
      | (true, s1) =>
        match power fuel (tx_next_token s1) with
        | .out => .out
        | .fail => .fail
        | .ok b s2 => .ok (.clos 1 p f c (.cons b .nil)) s2
    | .tfn ar p f =>
      match allocStep s with
      | (false, _) => .fail
      | (true, s1) =>
        let s2 := tx_next_token s1
        if s2.tok = .topen then
          match argsLoop fuel ar 0 s2 with
          | .aout => .out
          | .afail => .fail
          | .adone ps j s3 =>
            if s3.tok = .tclose ∧ j = ar - 1 then .ok (.func ar p f ps) (tx_next_token s3)
            else .ok (.func ar p f ps) { s3 with tok := .terror }
        else .ok (.func ar p f .nil) { s2 with tok := .terror }
    | .tclo ar p f c =>
      match allocStep s with
      | (false, _) => .fail
      | (true, s1) =>
        let s2 := tx_next_token s1
        if s2.tok = .topen then
          match argsLoop fuel ar 0 s2 with
          | .aout => .out
          | .afail => .fail
          | .adone ps j s3 =>
            if s3.tok = .tclose ∧ j = ar - 1 then .ok (.clos ar p f c ps) (tx_next_token s3)
            else .ok (.clos ar p f c ps) { s3 with tok := .terror }
        else .ok (.clos ar p f c .nil) { s2 with tok := .terror }
    | .topen =>
      match list fuel (tx_next_token s) with
      | .out => .out
      | .fail => .fail
      | .ok e s2 =>
        if s2.tok = .tclose then .ok e (tx_next_token s2)
        else .ok e { s2 with tok := .terror }
    | _ =>
      match allocStep s with
      | (false, _) => .fail
      | (true, s1) => .ok (.var 0) { s1 with tok := .terror }

/-- The for loop of an arity >= 2 call: while i < arity, advance past the
opening parenthesis or the separator, parse one expr argument, and
continue only on a separator (break leaves i unchanged; a full run exits
with i = arity). -/
def argsLoop : ℕ → ℕ → ℕ → State → ARes
  | 0, _, _, _ => .aout
  | fuel + 1, arity, i, s =>
    if i < arity then
      match expr fuel (tx_next_token s) with
      | .out => .aout
      | .fail => .afail
      | .ok e s2 =>
        if s2.tok = .tsep then
          match argsLoop fuel arity (i + 1) s2 with
          | .adone ps j s3 => .adone (.cons e ps) j s3
          | .afail => .afail
          | .aout => .aout
        else .adone (.cons e .nil) i s2
    else .adone .nil i s

/-- The leading-sign loop of the power production: consume any run of
unary + and -, tracking whether the net sign is negative. -/
def signsLoop : ℕ → Bool → State → Option (Bool × State)
  | 0, _, _ => none
  | fuel + 1, neg, s =>
    match s.tok with
    | .tinfx f =>
      if f = FPtr.add then signsLoop fuel neg (tx_next_token s)
      else if f = FPtr.sub then signsLoop fuel (!neg) (tx_next_token s)
      else some (neg, s)
    | _ => some (neg, s)

/-- power production: sign run, then base; a net negative sign wraps the
base in one pure negate node. -/
def power : ℕ → State → PRes
  | 0, _ => .out
  | fuel + 1, s =>
    match signsLoop fuel false s with
    | none => .out
    | some (neg, s1) =>
      if neg then
        match base fuel s1 with
        | .out => .out
        | .fail => .fail
        | .ok b s2 =>
          match allocStep s2 with
          | (false, _) => .fail
          | (true, s3) => .ok (.func 1 true FPtr.negate (.cons b .nil)) s3
      else base fuel s1

/-- factor production: power, then the left-associative caret loop. -/
def factor : ℕ → State → PRes
  | 0, _ => .out
  | fuel + 1, s =>
    match power fuel s with
    | .out => .out
    | .fail => .fail
    | .ok r s1 => factorLoop fuel r s1

/-- The while loop of factor: as long as the token is the infix whose
function pointer is cpow, parse another power and combine left to right. -/
def factorLoop : ℕ → Expr → State → PRes
  | 0, _, _ => .out
  | fuel + 1, acc, s =>
    match s.tok with
    | .tinfx f =>
      if f = FPtr.cpow then
        match power fuel (tx_next_token s) with
        | .out => .out
        | .fail => .fail
        | .ok p s2 =>
          match allocStep s2 with
          | (false, _) => .fail
          | (true, s3) =>
            factorLoop fuel (.func 2 true f (.cons acc (.cons p .nil))) s3
      else .ok acc s
    | _ => .ok acc s

/-- term production: factor, then the * and / loop. -/
def term : ℕ → State → PRes
  | 0, _ => .out
  | fuel + 1, s =>
    match factor fuel s with
    | .out => .out
    | .fail => .fail
    | .ok r s1 => termLoop fuel r s1

/-- The while loop of term. -/
def termLoop : ℕ → Expr → State → PRes
  | 0, _, _ => .out
  | fuel + 1, acc, s =>
    match s.tok with
    | .tinfx f =>
      if f = FPtr.mul ∨ f = FPtr.divide then
        match factor fuel (tx_next_token s) with
        | .out => .out
        | .fail => .fail
        | .ok r s2 =>
          match allocStep s2 with
          | (false, _) => .fail
          | (true, s3) =>
            termLoop fuel (.func 2 true f (.cons acc (.cons r .nil))) s3
      else .ok acc s
    | _ => .ok acc s

/-- expr production: term, then the + and - loop. -/
def expr : ℕ → State → PRes
  | 0, _ => .out
  | fuel + 1, s =>
    match term fuel s with
    | .out => .out
    | .fail => .fail
    | .ok r s1 => exprLoop fuel r s1

/-- The while loop of expr. -/
def exprLoop : ℕ → Expr → State → PRes
  | 0, _, _ => .out
  | fuel + 1, acc, s =>
    match s.tok with
    | .tinfx f =>
      if f = FPtr.add ∨ f = FPtr.sub then
        match term fuel (tx_next_token s) with
        | .out => .out
        | .fail => .fail
        | .ok r s2 =>
          match allocStep s2 with
          | (false, _) => .fail
          | (true, s3) =>
            exprLoop fuel (.func 2 true f (.cons acc (.cons r .nil))) s3
      else .ok acc s
    | _ => .ok acc s

/-- list production: expr, then the comma loop. -/
def list : ℕ → State → PRes
  | 0, _ => .out
  | fuel + 1, s =>
    match expr fuel s with
    | .out => .out
    | .fail => .fail
    | .ok r s1 => listLoop fuel r s1

/-- The while loop of list: each comma builds the pure binary comma node. -/
def listLoop : ℕ → Expr → State → PRes
  | 0, _, _ => .out
  | fuel + 1, acc, s =>
    match s.tok with
    | .tsep =>
      match expr fuel (tx_next_token s) with
      | .out => .out
      | .fail => .fail
      | .ok e s2 =>
        match allocStep s2 with
        | (false, _) => .fail
        | (true, s3) =>
          listLoop fuel (.func 2 true FPtr.comma (.cons acc (.cons e .nil))) s3
    | _ => .ok acc s

end

/-! ## Compile entry point -/

/-- Outcome of tx_compile, combining the returned handle and the error
out-parameter: ok carries the handle (the error out-parameter is then 0);
err means a null handle with the given value written to the error
out-parameter; out is the embedding-only fuel marker. -/
inductive CompileRes where
  | ok (handle : Expr)
  | err (offset : ℤ)
  | out
deriving DecidableEq, Repr

/-- tx_compile: tokenize and parse; a null root (an allocation failed)
reports -1; trailing input reports the consumed-character offset, bumped
from 0 to 1; success runs the optimizer and reports 0 through the error
out-parameter. -/
def tx_compile (expression : List Char) (vars : List TxVariable)
    (allocs : List Bool) (fuel : ℕ) : CompileRes :=
  match list fuel (tx_next_token (initState expression vars allocs)) with
  | .out => .out
  | .fail => .err (-1)
  | .ok root s2 =>
    if s2.tok = .tend then .ok (optimize stdInterp root)
    else .err (if (s2.pos : ℤ) = 0 then 1 else (s2.pos : ℤ))

/-- The tree the parse phase builds, before optimization (for the
structural claims about the grammar). -/
def parseRoot (expression : List Char) (vars : List TxVariable)
    (allocs : List Bool) (fuel : ℕ) : Option Expr :=
  match list fuel (tx_next_token (initState expression vars allocs)) with
  | .ok t _ => some t
  | _ => none

/-! ## Node sizes, for induction over the mutual tree type -/

mutual
/-- Size of a node. -/
def esize : Expr → ℕ
  | .const _ => 1
  | .var _ => 1
  | .func _ _ _ ps => 1 + lsize ps
  | .clos _ _ _ _ ps => 1 + lsize ps

/-- Size of a child list. -/
def lsize : ExprList → ℕ
  | .nil => 0
  | .cons t ts => 1 + esize t + lsize ts
end

/-! ## Concrete objects used by the claims -/

/-- Pure binary operator node, as every infix builds it. -/
def mkF2 (f : FPtr) (a b : Expr) : Expr := .func 2 true f (.cons a (.cons b .nil))

/-- Pure unary node (the negate wrapper). -/
def mkF1 (f : FPtr) (a : Expr) : Expr := .func 1 true f (.cons a .nil)

/-- Constant node holding the real integer k. -/
def cst (k : ℤ) : Expr := .const ⟨some (qInt k), some (qInt 0)⟩

/-- The complex number k + 0i. -/
def cR (k : ℤ) : Cx := ⟨some (qInt k), some (qInt 0)⟩

/-- Binding of the name x, as a Variable, to storage address 7. -/
def bindX : List TxVariable := [⟨("x").toList, .variableK 7⟩]

/-- Binding of the name pi, as a Variable, to storage address 3; shadows
the builtin constant. -/
def bindPi : List TxVariable := [⟨("pi").toList, .variableK 3⟩]

/-- Binding of the name f to a caller-supplied unary closure without the
pure flag (context 0, opaque body). -/
def bindF : List TxVariable := [⟨("f").toList, .closureK 1 false (.user 0) 0⟩]

/-- Store in which address 7 holds 2+0i. -/
def storeA : ℕ → Cx := fun a => if a = 7 then cR 2 else nanC0

/-- The same storage after the caller mutates address 7 to 5+0i. -/
def storeB : ℕ → Cx := fun a => if a = 7 then cR 5 else nanC0

/-- Store in which address 3 (the shadowing pi binding) holds 4+0i. -/
def storePi : ℕ → Cx := fun a => if a = 3 then cR 4 else nanC0

/-- The tree compiled from x+1 under bindX. -/
def treeXplus1 : Expr := mkF2 .add (.var 7) (cst 1)

/-- The pure all-constant subtree 2+3. -/
def innerAdd23 : Expr := mkF2 .add (cst 2) (cst 3)

/-- The tree compiled from f(2+3) under bindF: an impure closure whose
child is the unfolded 2+3 node. -/
def closF : Expr := .clos 1 false (.user 0) 0 (.cons innerAdd23 .nil)

/-! ## Helper lemmas -/

/-- Evaluating a list of constant nodes does not consult the store. -/
theorem evalList_allConst (I : Interp) (st st' : ℕ → Cx) :
    ∀ ps : ExprList, allConstL ps = true → evalList I st ps = evalList I st' ps
  | .nil, _ => rfl
  | .cons t ts, h => by
      simp only [allConstL, Bool.and_eq_true] at h
      cases t with
      | const v =>
          simp only [evalList, evalExpr]
          rw [evalList_allConst I st st' ts h.2]
      | var a => simp [isConstE] at h
      | func ar p f ps2 => simp [isConstE] at h
      | clos ar p f c ps2 => simp [isConstE] at h

/-- Every node has positive size. -/
theorem esize_pos : ∀ t : Expr, 1 ≤ esize t := by
  intro t
  cases t <;> simp [esize]

/-- Joint statement, by strong induction on size: optimizing preserves
evaluation, for nodes and for child lists. -/
theorem optimize_eval_aux :
    ∀ n : ℕ,
      (∀ t : Expr, esize t ≤ n → ∀ (I : Interp) (st : ℕ → Cx),
        evalExpr I st (optimize I t) = evalExpr I st t) ∧
      (∀ ps : ExprList, lsize ps ≤ n → ∀ (I : Interp) (st : ℕ → Cx),
        evalList I st (optimizeList I ps) = evalList I st ps) := by
  intro n
  induction n with
  | zero =>
      constructor
      · intro t ht _ _
        exact absurd (le_trans (esize_pos t) ht) (by omega)
      · intro ps hps I st
        cases ps with
        | nil => rfl
        | cons t ts =>
            exfalso
            have := esize_pos t
            simp [lsize] at hps
  | succ n ih =>
      constructor
      · intro t ht I st
        cases t with
        | const v => rfl
        | var a => rfl
        | func ar p f ps =>
            cases p with
            | false => rfl
            | true =>
                have hps : lsize ps ≤ n := by simp only [esize] at ht; omega
                have ihl := ih.2 ps hps I st
                by_cases hc : allConstL (optimizeList I ps) = true
                · have hin := evalList_allConst I st nanStore (optimizeList I ps) hc
                  simp only [optimize, hc, if_true, evalExpr]
                  rw [← hin, ihl]
                · simp only [optimize, hc, if_true, if_false, Bool.false_eq_true, evalExpr]
                  rw [ihl]
        | clos ar p f c ps =>
            cases p with
            | false => rfl
            | true =>
                have hps : lsize ps ≤ n := by simp only [esize] at ht; omega
                have ihl := ih.2 ps hps I st
                by_cases hc : allConstL (optimizeList I ps) = true
                · have hin := evalList_allConst I st nanStore (optimizeList I ps) hc
                  simp only [optimize, hc, if_true, evalExpr]
                  rw [← hin, ihl]
                · simp only [optimize, hc, if_true, if_false, Bool.false_eq_true, evalExpr]
                  rw [ihl]
      · intro ps hps I st
        cases ps with
        | nil => rfl
        | cons t ts =>
            have h1 : esize t ≤ n := by simp only [lsize] at hps; omega
            have h2 : lsize ts ≤ n := by
              have := esize_pos t
              simp only [lsize] at hps
              omega
            simp only [optimizeList, evalList]
            rw [ih.1 t h1 I st, ih.2 ts h2 I st]

/-! ## The claims -/

/-- C1, counterexample: with the first allocation failing, compiling the
expression 2 aborts with a null handle, but the error out-parameter
receives -1, not the offset 0 the claim reserves for allocation failure
(0 is what tx_compile writes on success). -/
theorem claimC1_counterexample :
    tx_compile (("2").toList) [] [false] 50 = CompileRes.err (-1) ∧
      ((-1 : ℤ) ≠ 0) :=
  ⟨rfl, by decide⟩

/-- C1, amended: if any allocation fails during compilation, the parse
phase returns a null root, tx_compile aborts the whole compile, returns
no handle, and reports -1 (not 0) through the error out-parameter; offset
0 is what a successful compile writes there, and a genuine syntax error
at source position 0 is still reported as offset 1 (witnessed by the
empty expression). -/
theorem claimC1 :
    (∀ (e : List Char) (v : List TxVariable) (a : List Bool) (n : ℕ),
        list n (tx_next_token (initState e v a)) = PRes.fail →
        tx_compile e v a n = CompileRes.err (-1)) ∧
      tx_compile [] [] [] 50 = CompileRes.err 1 := by
  constructor
  · intro e v a n h
    simp [tx_compile, h]
  · rfl

/-- C1, witness: a concrete allocation failure (first malloc refused on
the expression 2+3) hitting the amended theorem's hypothesis. -/
theorem claimC1_witness :
    tx_compile (("2+3").toList) [] [false] 50 = CompileRes.err (-1) :=
  claimC1.1 (("2+3").toList) [] [false] 50 (by rfl)

/-- C2, counterexample: tx_eval on a null handle does not return a value
with both components NaN -- the imaginary component is positive zero
(the C return NAN converts the real double NaN to a complex). -/
theorem claimC2_counterexample :
    ¬ ((tx_eval stdInterp nanStore none).re = none ∧
        (tx_eval stdInterp nanStore none).im = none) := by
  intro h
  exact absurd h.2 (by decide)

/-- C2, amended: evaluating a null/absent compiled handle returns the
complex whose real component is NaN and whose imaginary component is
(positive) zero, for every interpretation and store. -/
theorem claimC2 :
    (∀ (I : Interp) (st : ℕ → Cx), tx_eval I st none = nanC0) ∧
      nanC0.re = none ∧ nanC0.im = some (qInt 0) :=
  ⟨fun _ _ => rfl, rfl, rfl⟩

/-- C3: the power operator is left-associative -- 2^3^2 parses as
(2^3)^2 (structure of the tree the parse phase builds), and compiling and
evaluating it yields 64+0i, not 512+0i. -/
theorem claimC3 :
    parseRoot (("2^3^2").toList) [] [] 50 =
        some (mkF2 .cpow (mkF2 .cpow (cst 2) (cst 3)) (cst 2)) ∧
      tx_compile (("2^3^2").toList) [] [] 50 = CompileRes.ok (cst 64) ∧
      tx_eval stdInterp nanStore (some (cst 64)) = cR 64 ∧
      cR 64 ≠ cR 512 :=
  ⟨rfl, rfl, rfl, by decide⟩

/-- C4: unary sign binds tighter than the power operator -- -2^2 parses
as (-2)^2 with exactly one negate wrapper under the power node, a
cancelled sign run (--2^2) produces no wrapper at all, and compiling and
evaluating -2^2 yields 4+0i, not -4+0i. -/
theorem claimC4 :
    parseRoot (("-2^2").toList) [] [] 50 =
        some (mkF2 .cpow (mkF1 .negate (cst 2)) (cst 2)) ∧
      parseRoot (("--2^2").toList) [] [] 50 =
        some (mkF2 .cpow (cst 2) (cst 2)) ∧
      tx_compile (("-2^2").toList) [] [] 50 = CompileRes.ok (cst 4) ∧
      tx_eval stdInterp nanStore (some (cst 4)) = cR 4 ∧
      cR 4 ≠ cR (-4) :=
  ⟨rfl, rfl, rfl, rfl, by decide⟩

/-- C5, counterexample: the optimizer does not recursively optimize every
node's children -- compiling f(2+3) against an impure unary closure
binding leaves the pure all-constant child 2+3 unfolded inside the impure
node, although optimizing that child directly folds it to the constant 5;
the tree the claim's description would produce differs. -/
theorem claimC5_counterexample :
    tx_compile (("f(2+3)").toList) bindF [] 50 = CompileRes.ok closF ∧
      optimize stdInterp closF = closF ∧
      optimize stdInterp innerAdd23 = cst 5 ∧
      innerAdd23 ≠ cst 5 ∧
      optimize stdInterp closF ≠
        Expr.clos 1 false (.user 0) 0 (.cons (cst 5) .nil) := by
  refine ⟨rfl, rfl, rfl, by decide, by decide⟩

/-- C5, amended: the optimizer leaves Constant and VariableRef nodes and
every node not marked pure (including its descendants) untouched; for a
node marked pure it first optimizes the children and rewrites the node to
a Constant holding one evaluation of itself if and only if the optimized
children are all Constants; compiling 2+3 yields the single folded
constant node 5+0i with no children. -/
theorem claimC5 :
    (∀ (I : Interp) (v : Cx), optimize I (Expr.const v) = Expr.const v) ∧
      (∀ (I : Interp) (a : ℕ), optimize I (Expr.var a) = Expr.var a) ∧
      (∀ (I : Interp) (ar : ℕ) (f : FPtr) (ps : ExprList),
        optimize I (Expr.func ar false f ps) = Expr.func ar false f ps) ∧
      (∀ (I : Interp) (ar : ℕ) (f : FPtr) (c : ℕ) (ps : ExprList),
        optimize I (Expr.clos ar false f c ps) = Expr.clos ar false f c ps) ∧
      (∀ (I : Interp) (ar : ℕ) (f : FPtr) (ps : ExprList),
        optimize I (Expr.func ar true f ps) =
          if allConstL (optimizeList I ps) = true then
            Expr.const (evalExpr I nanStore (Expr.func ar true f (optimizeList I ps)))
          else Expr.func ar true f (optimizeList I ps)) ∧
      (∀ (I : Interp) (ar : ℕ) (f : FPtr) (c : ℕ) (ps : ExprList),
        optimize I (Expr.clos ar true f c ps) =
          if allConstL (optimizeList I ps) = true then
            Expr.const (evalExpr I nanStore (Expr.clos ar true f c (optimizeList I ps)))
          else Expr.clos ar true f c (optimizeList I ps)) ∧
      tx_compile (("2+3").toList) [] [] 50 = CompileRes.ok (cst 5) ∧
      tx_eval stdInterp nanStore (some (cst 5)) = cR 5 := by
  refine ⟨fun _ _ => rfl, fun _ _ => rfl, fun _ _ _ _ => rfl, fun _ _ _ _ _ => rfl,
    ?_, ?_, rfl, rfl⟩
  · intro I ar f ps
    simp only [optimize, if_true]
  · intro I ar f c ps
    simp only [optimize, if_true]

/-- C6: live binding -- a VariableRef reads the store passed to the very
evaluation call, so the same compiled handle for x+1 (x bound to address
7) evaluates to 3+0i while the storage holds 2+0i and to 6+0i after the
caller mutates it to 5+0i; no value is cached across calls. -/
theorem claimC6 :
    (∀ (I : Interp) (st : ℕ → Cx) (a : ℕ), evalExpr I st (Expr.var a) = st a) ∧
      tx_compile (("x+1").toList) bindX [] 50 = CompileRes.ok treeXplus1 ∧
      storeA 7 = cR 2 ∧
      tx_eval stdInterp storeA (some treeXplus1) = cR 3 ∧
      storeB 7 = cR 5 ∧
      tx_eval stdInterp storeB (some treeXplus1) = cR 6 :=
  ⟨fun _ _ _ => rfl, rfl, rfl, rfl, rfl, rfl⟩

/-- C7: identifier resolution consults the caller bindings first and the
builtin table only when no binding matches; a Variable binding named pi
(address 3, storage holding 4+0i) therefore shadows the builtin constant
pi, and the expression pi compiles to that variable and evaluates to
4+0i. -/
theorem claimC7 :
    (∀ (lookup : List TxVariable) (lex : List Char) (v : TxVariable),
        find_lookup lookup lex = some v → resolveSym lookup lex = some v) ∧
      find_builtin (("pi").toList) =
        some ⟨("pi").toList, .functionK 0 true .pi⟩ ∧
      find_lookup bindPi (("pi").toList) =
        some ⟨("pi").toList, .variableK 3⟩ ∧
      tx_compile (("pi").toList) bindPi [] 50 = CompileRes.ok (Expr.var 3) ∧
      storePi 3 = cR 4 ∧
      tx_eval stdInterp storePi (some (Expr.var 3)) = cR 4 := by
  refine ⟨?_, rfl, rfl, rfl, rfl, rfl⟩
  intro lookup lex v h
  simp [resolveSym, h]

/-- C7, witness: the shadowing pi binding resolves through the
binding-first rule. -/
theorem claimC7_witness :
    resolveSym bindPi (("pi").toList) = some ⟨("pi").toList, .variableK 3⟩ :=
  claimC7.1 bindPi (("pi").toList) ⟨("pi").toList, .variableK 3⟩ (by rfl)

/-- C8: pow takes exactly two arguments, so pow(2) fails to compile; no
handle is produced and the reported offset 6 is the 1-based position of
the closing parenthesis (source index 5), i.e. at/after it. -/
theorem claimC8 :
    tx_compile (("pow(2)").toList) [] [] 50 = CompileRes.err 6 ∧
      (("pow(2)").toList).getD 5 ' ' = ')' ∧
      find_builtin (("pow").toList) =
        some ⟨("pow").toList, .functionK 2 true .cpow⟩ :=
  ⟨rfl, rfl, rfl⟩

/-- C9: after a complete parse the compile entry point requires
end-of-input; 2+2 3 fails with offset 5, the 1-based position of the
trailing numeral 3 (source index 4). -/
theorem claimC9 :
    tx_compile (("2+2 3").toList) [] [] 50 = CompileRes.err 5 ∧
      (("2+2 3").toList).getD 4 ' ' = '3' :=
  ⟨rfl, rfl⟩

/-- C10: the constant-folding optimizer preserves evaluation -- for every
interpretation of the function pointers, every store (unchanged between
the two evaluations) and every expression tree, the optimized tree
evaluates to exactly the value of the original tree. -/
theorem claimC10 :
    ∀ (I : Interp) (st : ℕ → Cx) (t : Expr),
      evalExpr I st (optimize I t) = evalExpr I st t :=
  fun I st t => (optimize_eval_aux (esize t)).1 t le_rfl I st

end TinyExprX
